import Mathlib

/-!
Verification of the media-stream processing core of the `video-subtool`
repository.  The Python code of `src/app/service/ffmpeg_service.py`,
`src/app/service/detection_service.py` and the probe data model is embedded
shallowly: pure functions become Lean functions, the filesystem effects of
the safe-replace step become explicit state passing over a path-indexed
store, and the ffmpeg progress loop becomes a fold over the list of parsed
diagnostic lines.  Rational numbers stand in for Python floats, which is
faithful for the decimal literals produced by the `time=` regex.
-/

/-- Mirror of `app.model.probe_stream.ProbeStream` (a Python dataclass). -/
structure ProbeStream where
  index : Int
  codec_type : String
  codec_name : Option String
  language : Option String
  title : Option String
  forced : Bool
  default : Bool
deriving DecidableEq, Repr

/-- Mirror of `app.model.probe_result.ProbeResult`; the path plays no role in
the index arithmetic but is kept for fidelity. -/
structure ProbeResult where
  path : String
  streams : List ProbeStream
deriving DecidableEq, Repr

/-- Loop of `FfmpegService._relative_index_for_type` (ffmpeg_service.py
lines 179-186): walk the stream list with a counter `i` starting at `-1`,
increment on every stream of the queried `codec_type`, and return the
counter as soon as the absolute index matches; `0` if it never matches. -/
def relIndexAux : List ProbeStream → Int → String → Int → Int
  | [], _, _, _ => 0
  | s :: rest, absIndex, ctype, i =>
    let i' := if s.codec_type = ctype then i + 1 else i
    if s.index = absIndex then i' else relIndexAux rest absIndex ctype i'

/-- `FfmpegService._relative_index_for_type(pr, abs_index, codec_type)`. -/
def relative_index_for_type (pr : ProbeResult) (absIndex : Int) (ctype : String) : Int :=
  relIndexAux pr.streams absIndex ctype (-1)

lemma relIndexAux_append (l₁ l₂ : List ProbeStream) (s : ProbeStream) (i : Int)
    (h : ∀ t ∈ l₁, t.index ≠ s.index) :
    relIndexAux (l₁ ++ s :: l₂) s.index s.codec_type i
      = i + 1 + (l₁.countP (fun t => t.codec_type == s.codec_type) : Int) := by
  induction l₁ generalizing i with
  | nil => simp [relIndexAux]
  | cons t l₁ ih =>
    have ht : t.index ≠ s.index := h t (by simp)
    have hrest : ∀ u ∈ l₁, u.index ≠ s.index := fun u hu => h u (by simp [hu])
    simp only [List.cons_append, relIndexAux, if_neg ht, List.append_eq]
    by_cases hct : t.codec_type = s.codec_type
    · rw [if_pos hct, ih _ hrest]
      simp [List.countP_cons, hct]
      omega
    · rw [if_neg hct, ih _ hrest]
      have hb : (t.codec_type == s.codec_type) = false := by
        simpa using hct
      simp [List.countP_cons, hb]

lemma relIndexAux_eq_zero (l : List ProbeStream) (a : Int) (ct : String) (i : Int)
    (h : ∀ t ∈ l, t.index ≠ a) : relIndexAux l a ct i = 0 := by
  induction l generalizing i with
  | nil => rfl
  | cons t l ih =>
    have ht : t.index ≠ a := h t (by simp)
    simp only [relIndexAux, if_neg ht]
    exact ih _ (fun u hu => h u (by simp [hu]))

lemma not_mem_map_index_of_nodup (l₁ l₂ : List ProbeStream) (s : ProbeStream)
    (hnodup : (((l₁ ++ s :: l₂).map (fun t => t.index))).Nodup) :
    ∀ t ∈ l₁, t.index ≠ s.index := by
  intro t ht hEq
  rw [List.map_append, List.map_cons, List.nodup_append] at hnodup
  have h1 : t.index ∈ l₁.map (fun t => t.index) := List.mem_map_of_mem _ ht
  have h2 : t.index ∈ s.index :: l₂.map (fun t => t.index) := by
    rw [hEq]; exact List.mem_cons_self _ _
  exact hnodup.2.2 h1 h2

/-- Claim C2: for a probe result whose absolute indices are unique (the
spec's stated invariant), the relative index that
`_relative_index_for_type` computes for a stream of the result equals the
number of strictly earlier streams sharing its `codec_type`, zero-based. -/
theorem c2_relative_index_counts_predecessors
    (pr : ProbeResult) (l₁ l₂ : List ProbeStream) (s : ProbeStream)
    (hsplit : pr.streams = l₁ ++ s :: l₂)
    (hnodup : (pr.streams.map (fun t => t.index)).Nodup) :
    relative_index_for_type pr s.index s.codec_type
      = (l₁.countP (fun t => t.codec_type == s.codec_type) : Int) := by
  rw [hsplit] at hnodup
  have h := not_mem_map_index_of_nodup l₁ l₂ s hnodup
  unfold relative_index_for_type
  rw [hsplit, relIndexAux_append l₁ l₂ s (-1) h]
  omega

def exV : ProbeStream := ⟨0, "video", none, none, none, false, false⟩

def exA0 : ProbeStream := ⟨1, "audio", some "ac3", some "deu", none, false, true⟩

def exS0 : ProbeStream := ⟨2, "subtitle", some "srt", some "deu", some "Full Dub", false, false⟩

def exA1 : ProbeStream := ⟨3, "audio", some "aac", some "eng", none, false, false⟩

def exS1 : ProbeStream := ⟨4, "subtitle", some "srt", some "deu", some "Signs & Songs", false, false⟩

/-- The stream sequence `[video, audio, subtitle, audio, subtitle]` used as
an example by the spec. -/
def exPr : ProbeResult := ⟨"movie.mkv", [exV, exA0, exS0, exA1, exS1]⟩

theorem c2_witness :
    ((exPr.streams.map (fun t => t.index)).Nodup)
    ∧ relative_index_for_type exPr exS1.index exS1.codec_type
        = ([exV, exA0, exS0, exA1].countP (fun t => t.codec_type == exS1.codec_type) : Int) :=
  ⟨by decide,
   c2_relative_index_counts_predecessors exPr [exV, exA0, exS0, exA1] [] exS1 rfl (by decide)⟩

/-- Claim C10 (implicit): when the queried absolute index occurs nowhere in
the probe result, `_relative_index_for_type` falls through its loop and
returns `0` instead of failing or signalling absence. -/
theorem c10_unknown_index_returns_zero
    (pr : ProbeResult) (absIndex : Int) (ctype : String)
    (h : ∀ s ∈ pr.streams, s.index ≠ absIndex) :
    relative_index_for_type pr absIndex ctype = 0 :=
  relIndexAux_eq_zero pr.streams absIndex ctype (-1) h

theorem c10_witness :
    (∀ s ∈ exPr.streams, s.index ≠ 99)
    ∧ relative_index_for_type exPr 99 "audio" = 0 :=
  ⟨by decide, c10_unknown_index_returns_zero exPr 99 "audio" (by decide)⟩

/-- Character-wise lowercasing, the embedding of Python's `str.lower()` for
the ASCII keyword matching done by the classifier. -/
def lowerStr (s : String) : String := ⟨s.data.map Char.toLower⟩

/-- Executable prefix test on character lists. -/
def strStarts : List Char → List Char → Bool
  | [], _ => true
  | _ :: _, [] => false
  | a :: as, b :: bs => a == b && strStarts as bs

/-- Executable substring test on character lists. -/
def strHasSub : List Char → List Char → Bool
  | n, [] => strStarts n []
  | n, c :: t => strStarts n (c :: t) || strHasSub n t

/-- Python's `needle in hay` substring containment. -/
def strContains (hay needle : String) : Bool := strHasSub needle.data hay.data

lemma strStarts_iff (n h : List Char) : strStarts n h = true ↔ n <+: h := by
  induction n generalizing h with
  | nil => simp [strStarts]
  | cons a as ih =>
    cases h with
    | nil => simp [strStarts]
    | cons b bs => simp [strStarts, List.cons_prefix_cons, ih, and_comm]

lemma strHasSub_iff (n h : List Char) : strHasSub n h = true ↔ n <:+: h := by
  induction h with
  | nil => simp [strHasSub, strStarts_iff]
  | cons c t ih => simp [strHasSub, strStarts_iff, ih, List.infix_cons_iff]

/-- Mirror of `DetectionService.classify_subtitle` (detection_service.py
lines 6-12): the `forced` disposition wins, otherwise match any of the four
keywords inside the lowercased title (`None` title treated as `""`). -/
def classify_subtitle (title : Option String) (language : Option String) (forced : Bool) : String :=
  if forced then "forced"
  else
    let t := lowerStr (title.getD "")
    if (["forced", "zwang", "signs", "songs"].any (fun k => strContains t k)) then "forced"
    else "full"

/-- Claim C4: `classify_subtitle` returns `forced` exactly when the forced
flag is set or the lowercased title contains one of the keywords `forced`,
`zwang`, `signs`, `songs` as a substring, and otherwise returns `full`; it
is a pure function of its arguments by construction. -/
theorem c4_classify_subtitle_spec (title language : Option String) (forced : Bool) :
    (classify_subtitle title language forced = "forced"
        ↔ forced = true
          ∨ ∃ k ∈ (["forced", "zwang", "signs", "songs"] : List String),
              k.data <:+: (lowerStr (title.getD "")).data)
    ∧ (classify_subtitle title language forced = "forced"
        ∨ classify_subtitle title language forced = "full") := by
  have key : (["forced", "zwang", "signs", "songs"].any
        (fun k => strContains (lowerStr (title.getD "")) k)) = true
      ↔ ∃ k ∈ (["forced", "zwang", "signs", "songs"] : List String),
          k.data <:+: (lowerStr (title.getD "")).data := by
    simp [List.any_eq_true, strContains, strHasSub_iff]
  refine ⟨?_, ?_⟩
  · rw [← key]
    by_cases hf : forced
    · simp [classify_subtitle, hf]
    · by_cases ha : (["forced", "zwang", "signs", "songs"].any
          (fun k => strContains (lowerStr (title.getD "")) k)) = true
      · simp [classify_subtitle, hf, ha]
      · simp [classify_subtitle, hf, ha]
  · by_cases hf : forced
    · simp [classify_subtitle, hf]
    · by_cases ha : (["forced", "zwang", "signs", "songs"].any
          (fun k => strContains (lowerStr (title.getD "")) k)) = true
      · simp [classify_subtitle, hf, ha]
      · simp [classify_subtitle, hf, ha]

/-- Subset of JSON values needed to model one ffprobe stream entry; `pyStr`
below mirrors how Python's `str()` renders them. -/
inductive JVal where
  | jnull
  | jbool (b : Bool)
  | jint (n : Int)
  | jstr (s : String)
deriving DecidableEq, Repr

/-- Python `str()` of a `JVal`. -/
def pyStr : JVal → String
  | .jnull => "None"
  | .jbool true => "True"
  | .jbool false => "False"
  | .jint n => toString n
  | .jstr s => s

/-- One entry of the ffprobe `streams` array, with the fields
`parse_streams` reads: `index`, `codec_type`, `codec_name`, the `tags`
map and the `disposition` map. -/
structure RawEntry where
  index : Option Int
  codec_type : Option String
  codec_name : Option String
  tags : List (String × String)
  disposition : List (String × JVal)
deriving DecidableEq, Repr

/-- Python `dict.get(k)`: exact-key lookup. -/
def pyGet {α : Type} (m : List (String × α)) (k : String) : Option α :=
  (m.find? (fun kv => kv.1 == k)).map (fun kv => kv.2)

/-- Python `a or b` for optional strings: `a` unless it is `None` or the
empty string. -/
def pyOrStr (a b : Option String) : Option String :=
  match a with
  | some s => if s = "" then b else some s
  | none => b

/-- Mirror of `FfmpegService.parse_streams` (ffmpeg_service.py lines
150-168): iterate the entries, skip those whose `codec_type` is missing or
falsy, and build a `ProbeStream` from the exact-key tag lookups
`tags.get("language") or tags.get("LANGUAGE")` (same for title) and the
disposition test `str(disposition.get(key, 0)) == "1"`. -/
def parse_streams : List RawEntry → List ProbeStream
  | [] => []
  | s :: rest =>
    match s.codec_type with
    | none => parse_streams rest
    | some ct =>
      if ct = "" then parse_streams rest
      else
        { index := s.index.getD (-1)
          codec_type := ct
          codec_name := s.codec_name
          language := pyOrStr (pyGet s.tags "language") (pyGet s.tags "LANGUAGE")
          title := pyOrStr (pyGet s.tags "title") (pyGet s.tags "TITLE")
          forced := pyStr ((pyGet s.disposition "forced").getD (JVal.jint 0)) == "1"
          default := pyStr ((pyGet s.disposition "default").getD (JVal.jint 0)) == "1" }
          :: parse_streams rest

/-- Per-entry decoder spelled out as the amended claim C9 states it: skip
when `codec_type` is absent or empty; `language`/`title` come from the
exact lowercase key with the exact uppercase key as fallback (no other
casing is consulted); `forced`/`default` hold exactly when the stringified
disposition value equals `"1"`. -/
def specDecode (e : RawEntry) : Option ProbeStream :=
  match e.codec_type with
  | none => none
  | some ct =>
    if ct = "" then none
    else some
      { index := e.index.getD (-1)
        codec_type := ct
        codec_name := e.codec_name
        language := pyOrStr (pyGet e.tags "language") (pyGet e.tags "LANGUAGE")
        title := pyOrStr (pyGet e.tags "title") (pyGet e.tags "TITLE")
        forced := pyStr ((pyGet e.disposition "forced").getD (JVal.jint 0)) == "1"
        default := pyStr ((pyGet e.disposition "default").getD (JVal.jint 0)) == "1" }

/-- An entry carrying its language tag under the mixed-case key
`"Language"`, which a case-insensitive lookup would find. -/
def ciEntry : RawEntry :=
  { index := some 2, codec_type := some "subtitle", codec_name := some "srt",
    tags := [("Language", "eng")], disposition := [] }

/-- Claim C9 counterexample: the decoded stream's `language` is `none`
although the entry holds the tag key `"Language"`, a casing of
`"language"` that a case-insensitive key lookup finds; only the exact keys
`"language"` and `"LANGUAGE"` are consulted by the code. -/
theorem c9_counterexample :
    ((parse_streams [ciEntry]).map (fun st => st.language) = [none])
    ∧ ((ciEntry.tags.find? (fun kv => lowerStr kv.1 == "language")).map
          (fun kv => kv.2) = some "eng")
    ∧ (parse_streams [ciEntry]).map (fun st => st.language) ≠ [some "eng"] := by
  refine ⟨by decide, by decide, by decide⟩

/-- Claim C9 as amended: stream-entry parsing skips exactly the entries
whose `codec_type` is missing or empty, pulls `language`/`title` from the
exact keys `"language"`/`"LANGUAGE"` (`"title"`/`"TITLE"`) with the
lowercase key taking precedence unless its value is falsy, and sets the
disposition booleans exactly when the stringified sub-map value equals
`"1"`; i.e. parsing is the `filterMap` of the per-entry decoder. -/
theorem c9_amended_parse_streams (entries : List RawEntry) :
    parse_streams entries = entries.filterMap specDecode := by
  induction entries with
  | nil => rfl
  | cons e rest ih =>
    cases hct : e.codec_type with
    | none => simp [parse_streams, List.filterMap_cons, specDecode, hct, ih]
    | some ct =>
      by_cases hempty : ct = ""
      · simp [parse_streams, List.filterMap_cons, specDecode, hct, hempty, ih]
      · simp [parse_streams, List.filterMap_cons, specDecode, hct, hempty, ih]

/-- The `FileNotFoundError` message of `find_ffbin`. -/
def ffbinNotFoundMsg (name : String) : String :=
  name ++ " nicht gefunden. Setze einen Pfad in den Einstellungen, installiere es systemweit oder lege es unter resources/ffmpeg/<platform>/ ab."

/-- Mirror of `FfmpegService.find_ffbin` (ffmpeg_service.py lines 71-107).
A parameter being `some p` embeds "the candidate exists on disk" (for
custom: configured and existing; for vendored: present under the resource
dir; for system: found on PATH), matching the `*_ok` booleans of the code.
The `chmod` side effect on the vendored binary is outside the model. -/
def find_ffbin (name : String) (preferBundled : Bool)
    (custom vendor system : Option String) : Except String String :=
  if preferBundled then
    match vendor with
    | some v => Except.ok v
    | none =>
      match custom with
      | some c => Except.ok c
      | none =>
        match system with
        | some s => Except.ok s
        | none => Except.error (ffbinNotFoundMsg name)
  else
    match custom with
    | some c => Except.ok c
    | none =>
      match system with
      | some s => Except.ok s
      | none =>
        match vendor with
        | some v => Except.ok v
        | none => Except.error (ffbinNotFoundMsg name)

/-- First present candidate of an ordered list, the claim's wording of the
resolution order. -/
def firstSome : List (Option String) → Option String
  | [] => none
  | o :: rest =>
    match o with
    | some p => some p
    | none => firstSome rest

/-- Claim C7: `find_ffbin` returns the first existing candidate in the
order vendored → custom → system when `prefer_bundled` is true and
custom → system → vendored when it is false (so a configured custom path
beats an existing vendored binary when `prefer_bundled` is false), and it
fails with the not-found error exactly when no candidate exists. -/
theorem c7_find_ffbin_precedence (name : String) (pb : Bool)
    (custom vendor system : Option String) :
    (find_ffbin name pb custom vendor system
        = match firstSome (if pb then [vendor, custom, system] else [custom, system, vendor]) with
          | some p => Except.ok p
          | none => Except.error (ffbinNotFoundMsg name))
    ∧ ((∃ e, find_ffbin name pb custom vendor system = Except.error e)
        ↔ custom = none ∧ vendor = none ∧ system = none) := by
  cases pb <;> cases custom <;> cases vendor <;> cases system <;>
    simp [find_ffbin, firstSome]

/-- Mirror of `FfmpegService.detect_origin` (ffmpeg_service.py lines
110-128): it checks both tools at once (`has_custom` needs both custom
paths, `has_vendor` both vendored binaries, `has_system` both on PATH). -/
def detect_origin (pb : Bool)
    (customFf customFp vendorFf vendorFp systemFf systemFp : Option String) : String :=
  let has_custom := customFf.isSome && customFp.isSome
  let has_vendor := vendorFf.isSome && vendorFp.isSome
  let has_system := systemFf.isSome && systemFp.isSome
  if pb && has_vendor then "bundled"
  else if !pb && has_custom then "custom"
  else if has_system then "system"
  else if has_vendor then "bundled"
  else "missing"

/-- Origin label of the candidate `find_ffbin` would select, written from
the claim C8's words for the refinement comparison: the label follows the
resolver's precedence order and is `missing` exactly when resolution
fails. -/
def originOfResolution (pb : Bool) (custom vendor system : Option String) : String :=
  if pb then
    if vendor.isSome then "bundled"
    else if custom.isSome then "custom"
    else if system.isSome then "system"
    else "missing"
  else
    if custom.isSome then "custom"
    else if system.isSome then "system"
    else if vendor.isSome then "bundled"
    else "missing"

/-- Claim C8 counterexample: with `prefer_bundled = true` and only a valid
custom path configured for both tools, `find_ffbin` resolves the custom
path, but `detect_origin` reports `missing` — the two functions do not
implement the same precedence logic. -/
theorem c8_counterexample :
    detect_origin true (some "/opt/ffmpeg") (some "/opt/ffprobe") none none none none
        = "missing"
    ∧ originOfResolution true (some "/opt/ffmpeg") none none = "custom"
    ∧ find_ffbin "ffmpeg" true (some "/opt/ffmpeg") none none
        = Except.ok "/opt/ffmpeg" :=
  ⟨by decide, by decide, rfl⟩

/-- Claim C8 as amended: when `prefer_bundled` is false (and tool
availability is uniform across ffmpeg/ffprobe), `detect_origin` follows
exactly the resolver's precedence custom → system → vendored and reports
`missing` exactly when `find_ffbin` fails; but when `prefer_bundled` is
true it checks vendored and then falls back to system → vendored →
missing without ever consulting the custom path, so it can diverge from
`find_ffbin` (which would return the custom path). -/
theorem c8_amended_detect_origin (pb : Bool) (custom vendor system : Option String) :
    (detect_origin pb custom custom vendor vendor system system
        = (if pb then
             (if vendor.isSome then "bundled"
              else if system.isSome then "system" else "missing")
           else originOfResolution false custom vendor system))
    ∧ (detect_origin false custom custom vendor vendor system system = "missing"
        ↔ find_ffbin "ffmpeg" false custom vendor system
            = Except.error (ffbinNotFoundMsg "ffmpeg")) := by
  cases pb <;> cases custom <;> cases vendor <;> cases system <;>
    simp [detect_origin, originOfResolution, find_ffbin]

/-- Mirror of `_time_to_seconds(h, m, s)` (ffmpeg_service.py line 21), with
rationals standing in for the parsed decimal literals. -/
def time_to_seconds (h m : Nat) (s : ℚ) : ℚ := h * 3600 + m * 60 + s

/-- Python `int()` on a rational: truncation toward zero. -/
def pyInt (q : ℚ) : Int := if 0 ≤ q then ⌊q⌋ else -⌊-q⌋

/-- Truthiness of the optional total duration (`if on_progress and total`). -/
def qTruthy : Option ℚ → Bool
  | none => false
  | some t => decide (t ≠ 0)

/-- The percentage computed from one `time=` match (ffmpeg_service.py line
228): `max(0, min(100, int(cur / total * 100)))`. -/
def linePct (t : ℚ) (line : Nat × Nat × ℚ) : Int :=
  max 0 (min 100 (pyInt (time_to_seconds line.1 line.2.1 line.2.2 / t * 100)))

/-- The stderr loop of `_run_ffmpeg_with_progress` (ffmpeg_service.py lines
223-232).  A line is embedded as `none` when the `time=` regex does not
match and as `some (h, m, s)` when it matches those components.  The
result is the list of percent values handed to the progress callback,
threading `last_reported` exactly as the code does. -/
def loopCalls (total : Option ℚ) : List (Option (Nat × Nat × ℚ)) → Int → List Int
  | [], _ => []
  | none :: rest, last => loopCalls total rest last
  | some (h, m, s) :: rest, last =>
    match total with
    | none => loopCalls total rest last
    | some t =>
      if 0 < t then
        if linePct t (h, m, s) ≠ last
        then linePct t (h, m, s) :: loopCalls total rest (linePct t (h, m, s))
        else loopCalls total rest last
      else loopCalls total rest last

/-- Mirror of `_run_ffmpeg_with_progress` (ffmpeg_service.py lines
198-240) at the level of its observable callback/raise behaviour: the
optional initial `0` (sent when a callback and a truthy total are
present), the loop callbacks, the unconditional trailing `100`, and the
`CalledProcessError` raised exactly on a non-zero exit code. -/
def run_ffmpeg_with_progress (total : Option ℚ) (lines : List (Option (Nat × Nat × ℚ)))
    (ret : Int) (hasCb : Bool) : List Int × Bool :=
  let initTrace : List Int := if hasCb && qTruthy total then [0] else []
  let loopTrace : List Int := if hasCb then loopCalls total lines (-1) else []
  let finalTrace : List Int := if hasCb then [100] else []
  (initTrace ++ loopTrace ++ finalTrace, ret != 0)

/-- Claim C6: with a callback supplied, the callback trace is the pre-exit
trace followed by exactly one final `100`, the trace does not depend on
the exit code (so `100` fires on failure too), and the runner raises if
and only if the exit code is non-zero. -/
theorem c6_final_hundred_then_raise (total : Option ℚ)
    (lines : List (Option (Nat × Nat × ℚ))) (ret : Int) :
    ((run_ffmpeg_with_progress total lines ret true).1
        = (if qTruthy total then [(0 : Int)] else []) ++ loopCalls total lines (-1) ++ [100])
    ∧ ((run_ffmpeg_with_progress total lines ret true).1
        = (run_ffmpeg_with_progress total lines 0 true).1)
    ∧ ((run_ffmpeg_with_progress total lines ret true).1.getLast? = some 100)
    ∧ ((run_ffmpeg_with_progress total lines ret true).2 = true ↔ ret ≠ 0) := by
  refine ⟨by simp [run_ffmpeg_with_progress], by simp [run_ffmpeg_with_progress], ?_, ?_⟩
  · have h : (run_ffmpeg_with_progress total lines ret true).1
        = ((if qTruthy total then [(0 : Int)] else []) ++ loopCalls total lines (-1)) ++ [100] := by
      simp [run_ffmpeg_with_progress]
    rw [h, List.getLast?_concat]
  · simp [run_ffmpeg_with_progress]

/-- The claim's percent sequence: one entry per line matching the `time=`
regex, each the clamped truncated percentage. -/
def percents (t : ℚ) (lines : List (Option (Nat × Nat × ℚ))) : List Int :=
  lines.filterMap (fun l => l.map (linePct t))

/-- Consecutive de-duplication against a running last-reported value. -/
def dedupFrom (last : Int) : List Int → List Int
  | [] => []
  | p :: ps => if p = last then dedupFrom last ps else p :: dedupFrom p ps

lemma dedupFrom_chain (ps : List Int) : ∀ last : Int,
    List.Chain' (fun a b => a ≠ b) (dedupFrom last ps)
    ∧ (∀ x, (dedupFrom last ps).head? = some x → x ≠ last) := by
  induction ps with
  | nil => intro last; simp [dedupFrom]
  | cons p ps ih =>
    intro last
    by_cases hp : p = last
    · simpa [dedupFrom, hp] using ih last
    · refine ⟨?_, ?_⟩
      · have hc := (ih p).1
        rw [dedupFrom, if_neg hp]
        cases hd : dedupFrom p ps with
        | nil => simp
        | cons q qs =>
          have hq : q ≠ p := (ih p).2 q (by rw [hd]; rfl)
          rw [hd] at hc
          exact List.chain'_cons.mpr ⟨Ne.symm hq, hc⟩
      · intro x hx
        rw [dedupFrom, if_neg hp] at hx
        simp only [List.head?_cons, Option.some_inj] at hx
        exact hx ▸ hp

lemma loopCalls_eq_dedup (t : ℚ) (ht : 0 < t)
    (lines : List (Option (Nat × Nat × ℚ))) : ∀ last : Int,
    loopCalls (some t) lines last = dedupFrom last (percents t lines) := by
  induction lines with
  | nil => intro last; rfl
  | cons l rest ih =>
    intro last
    cases l with
    | none => simpa [loopCalls, percents, List.filterMap_cons] using ih last
    | some hms =>
      obtain ⟨h, m, s⟩ := hms
      simp only [loopCalls, percents, List.filterMap_cons, Option.map_some', if_pos ht]
      by_cases hp : linePct t (h, m, s) = last
      · rw [if_neg (by simp [hp]), dedupFrom, if_pos hp]
        simpa [percents] using ih last
      · rw [if_pos hp, dedupFrom, if_neg hp]
        congr 1
        simpa [percents] using ih (linePct t (h, m, s))

lemma pyInt_eq_floor (q : ℚ) (h : 0 ≤ q) : pyInt q = ⌊q⌋ := if_pos h

/-- Claim C5 as amended: with a known positive total duration, the loop's
callback values are exactly the consecutive de-duplication (against the
running last-reported value, seeded with the sentinel `-1`) of the per-line
clamped floor percentages, hence no two consecutive *loop* callbacks are
equal while a backward jump differing from the last value is still
reported; the unconditional initial `0` callback, however, is not recorded
in `last_reported`, so the full trace may begin `0, 0`. -/
theorem c5_amended_progress_dedup (t : ℚ) (ht : 0 < t)
    (lines : List (Option (Nat × Nat × ℚ))) :
    (loopCalls (some t) lines (-1) = dedupFrom (-1) (percents t lines))
    ∧ List.Chain' (fun a b => a ≠ b) (loopCalls (some t) lines (-1))
    ∧ (∀ h m s, (0 : ℚ) ≤ s →
        linePct t (h, m, s) = max 0 (min 100 ⌊time_to_seconds h m s / t * 100⌋)) := by
  refine ⟨loopCalls_eq_dedup t ht lines (-1), ?_, ?_⟩
  · rw [loopCalls_eq_dedup t ht lines (-1)]
    exact (dedupFrom_chain (percents t lines) (-1)).1
  · intro h m s hs
    have hcur : (0 : ℚ) ≤ time_to_seconds h m s := by
      unfold time_to_seconds
      have h1 : (0 : ℚ) ≤ (h : ℚ) * 3600 := by positivity
      have h2 : (0 : ℚ) ≤ (m : ℚ) * 60 := by positivity
      linarith
    have hq : (0 : ℚ) ≤ time_to_seconds h m s / t * 100 :=
      mul_nonneg (div_nonneg hcur ht.le) (by norm_num)
    simp [linePct, pyInt_eq_floor _ hq]

theorem c5_witness :
    ((0 : ℚ) < 10)
    ∧ (loopCalls (some 10) [some (0, 0, 0)] (-1)
        = dedupFrom (-1) (percents 10 [some (0, 0, 0)]))
    ∧ List.Chain' (fun a b => a ≠ b) (loopCalls (some 10) [some (0, 0, 0)] (-1)) :=
  ⟨by decide,
   (c5_amended_progress_dedup 10 (by decide) [some (0, 0, 0)]).1,
   (c5_amended_progress_dedup 10 (by decide) [some (0, 0, 0)]).2.1⟩

/-- Claim C5 counterexample: with total duration `10` and a single line
whose marker reads `time=00:00:00`, the callback is invoked with `0` by
the unconditional initial call and again with `0` by the line (the initial
call does not update `last_reported`), so two consecutive progress
callbacks before the terminal `100` carry the same value. -/
theorem c5_counterexample :
    ((run_ffmpeg_with_progress (some 10) [some (0, 0, 0)] 0 true).1 = [0, 0, 100])
    ∧ ¬ List.Chain' (fun a b => a ≠ b)
        ((run_ffmpeg_with_progress (some 10) [some (0, 0, 0)] 0 true).1.dropLast) := by
  have h1 : (run_ffmpeg_with_progress (some 10) [some (0, 0, 0)] 0 true).1 = [0, 0, 100] := by
    norm_num [run_ffmpeg_with_progress, qTruthy, loopCalls, linePct, time_to_seconds, pyInt]
  refine ⟨h1, ?_⟩
  rw [h1]
  simp

/-- A filesystem as a map from paths to optional file contents. -/
def Fs : Type := String → Option Nat

/-- `Path.exists()`. -/
def fsExists (fs : Fs) (p : String) : Bool := (fs p).isSome

/-- `Path.unlink()` / `Path.unlink(missing_ok=True)`. -/
def fsUnlink (fs : Fs) (p : String) : Fs :=
  fun q => if q = p then none else fs q

/-- `src.replace(dst)` (`os.replace`): `dst` receives `src`'s content and
`src` disappears. -/
def fsReplace (fs : Fs) (src dst : String) : Fs :=
  fun q => if q = dst then fs src else if q = src then none else fs q

/-- The swap tail of `remove_subtitles_and_replace` (ffmpeg_service.py
lines 299-311): delete a stale backup, move the original to the backup
path, then try to move the freshly muxed `tmp` onto the original path and
drop the backup.  `renameFails` injects a failure of that second rename
(`tmp.replace(file)`), after which the original path holds `partialFile`
(`none` for no file, `some c` for a partially written one); the except
block then deletes any partial file, restores the backup, and re-raises.
The returned boolean is `true` when the error is re-raised. -/
def safe_replace_step (fs : Fs) (file tmp backup : String)
    (renameFails : Bool) (partialFile : Option Nat) : Fs × Bool :=
  let fs1 := if fsExists fs backup then fsUnlink fs backup else fs
  let fs2 := fsReplace fs1 file backup
  if renameFails then
    let fs3 : Fs := fun q => if q = file then partialFile else fs2 q
    let fs4 := if fsExists fs3 file then fsUnlink fs3 file else fs3
    let fs5 := fsReplace fs4 backup file
    (fs5, true)
  else
    let fs3 := fsReplace fs2 tmp file
    let fs4 := fsUnlink fs3 backup
    (fs4, false)

/-- Claim C1: if the rename of the temporary muxed file onto the original
path fails, then whatever partial file the failed rename left behind, the
recovery path deletes it, restores the backup onto the original path and
re-raises, so after the operation the original path holds exactly its
pristine original content (in particular it is never missing when it
existed before). -/
theorem c1_safe_replace_restores_original (fs : Fs) (file tmp backup : String)
    (partialFile : Option Nat) (hfb : file ≠ backup) :
    ((safe_replace_step fs file tmp backup true partialFile).1 file = fs file)
    ∧ ((safe_replace_step fs file tmp backup true partialFile).2 = true) := by
  have hbf : backup ≠ file := Ne.symm hfb
  constructor
  · by_cases h1 : (fs backup).isSome = true
    · by_cases h2 : partialFile.isSome = true <;>
        simp [safe_replace_step, fsReplace, fsUnlink, fsExists, h1, h2, hfb, hbf]
    · by_cases h2 : partialFile.isSome = true <;>
        simp [safe_replace_step, fsReplace, fsUnlink, fsExists, h1, h2, hfb, hbf]
  · rfl

/-- A concrete filesystem holding the original `movie.mkv` and the muxed
temporary, with a stale backup also present. -/
def exFs : Fs := fun q =>
  if q = "movie.mkv" then some 7
  else if q = "movie.mkv.tmp_mux.mkv" then some 9
  else if q = "movie.mkv.bak" then some 3
  else none

theorem c1_witness :
    ("movie.mkv" ≠ "movie.mkv.bak")
    ∧ ((safe_replace_step exFs "movie.mkv" "movie.mkv.tmp_mux.mkv" "movie.mkv.bak"
          true (some 4)).1 "movie.mkv" = exFs "movie.mkv")
    ∧ ((safe_replace_step exFs "movie.mkv" "movie.mkv.tmp_mux.mkv" "movie.mkv.bak"
          true (some 4)).2 = true) :=
  ⟨by decide,
   (c1_safe_replace_restores_original exFs "movie.mkv" "movie.mkv.tmp_mux.mkv"
      "movie.mkv.bak" (some 4) (by decide)).1,
   (c1_safe_replace_restores_original exFs "movie.mkv" "movie.mkv.tmp_mux.mkv"
      "movie.mkv.bak" (some 4) (by decide)).2⟩

/-- Mirror of `FfmpegService._ffmpeg_type_letter` (ffmpeg_service.py line
176-177), a dict lookup defaulting to `"d"`. -/
def ffmpeg_type_letter (codec_type : String) : String :=
  if codec_type = "video" then "v"
  else if codec_type = "audio" then "a"
  else if codec_type = "subtitle" then "s"
  else if codec_type = "data" then "d"
  else if codec_type = "attachment" then "t"
  else "d"

/-- Loop of `FfmpegService._build_non_sub_maps` (ffmpeg_service.py lines
188-194): one `0:<letter>:<rel>` selector per non-subtitle stream, with the
relative index recomputed through `_relative_index_for_type` against the
full probe result. -/
def buildNonSubAux (pr : ProbeResult) : List ProbeStream → List String
  | [] => []
  | s :: rest =>
    if s.codec_type ≠ "subtitle" then
      ("0:" ++ ffmpeg_type_letter s.codec_type ++ ":"
          ++ toString (relative_index_for_type pr s.index s.codec_type))
        :: buildNonSubAux pr rest
    else buildNonSubAux pr rest

/-- `FfmpegService._build_non_sub_maps(pr)`. -/
def build_non_sub_maps (pr : ProbeResult) : List String := buildNonSubAux pr pr.streams

/-- The subtitle keep-loop of `remove_subtitles_and_replace`
(ffmpeg_service.py lines 273-284): walk the streams with the `sub_rel`
counter starting at `-1`, increment on every subtitle, classify it, and
emit `0:s:<sub_rel>` when the classification is in the keep list. -/
def keepMapsAux (keep : List String) : List ProbeStream → Int → List String
  | [], _ => []
  | s :: rest, subRel =>
    if s.codec_type = "subtitle" then
      if keep.contains (classify_subtitle s.title s.language s.forced)
      then ("0:s:" ++ toString (subRel + 1)) :: keepMapsAux keep rest (subRel + 1)
      else keepMapsAux keep rest (subRel + 1)
    else keepMapsAux keep rest subRel

/-- The `keep_maps` list of `remove_subtitles_and_replace`, including the
`if keep_kinds:` truthiness gate (both `None` and `[]` skip the loop). -/
def keep_maps (pr : ProbeResult) (keep_kinds : Option (List String)) : List String :=
  match keep_kinds with
  | none => []
  | some ks => if ks.isEmpty then [] else keepMapsAux ks pr.streams (-1)

/-- The ffmpeg command assembled by `remove_subtitles_and_replace`
(ffmpeg_service.py lines 290-295): overwrite flag, the input, `-map`
arguments for the non-subtitle selectors then the kept-subtitle selectors,
stream copy, and the temporary output. -/
def strip_cmd (ffmpeg file tmp : String) (pr : ProbeResult)
    (keep_kinds : Option (List String)) : List String :=
  [ffmpeg, "-y", "-i", file]
    ++ (build_non_sub_maps pr).flatMap (fun m => ["-map", m])
    ++ (keep_maps pr keep_kinds).flatMap (fun m => ["-map", m])
    ++ ["-c", "copy", tmp]

/-- Selector list the claim C3 describes for the non-subtitle streams: in
probe order, one selector per non-subtitle stream whose relative index is
the count of same-`codec_type` predecessors (`pre` carries the already
scanned prefix). -/
def specNonSubAux (pre : List ProbeStream) : List ProbeStream → List String
  | [] => []
  | s :: rest =>
    if s.codec_type ≠ "subtitle" then
      ("0:" ++ ffmpeg_type_letter s.codec_type ++ ":"
          ++ toString ((pre.countP (fun t => t.codec_type == s.codec_type)) : Int))
        :: specNonSubAux (pre ++ [s]) rest
    else specNonSubAux (pre ++ [s]) rest

def specNonSub (pr : ProbeResult) : List String := specNonSubAux [] pr.streams

/-- Selector list the claim C3 describes for the kept subtitles: one
`0:s:<j>` selector per subtitle stream whose classification is in the
keep-set, where `j` counts the subtitle predecessors. -/
def specKeepAux (ks : List String) (pre : List ProbeStream) : List ProbeStream → List String
  | [] => []
  | s :: rest =>
    if s.codec_type = "subtitle" then
      if ks.contains (classify_subtitle s.title s.language s.forced)
      then ("0:s:" ++ toString ((pre.countP (fun t => t.codec_type == "subtitle")) : Int))
          :: specKeepAux ks (pre ++ [s]) rest
      else specKeepAux ks (pre ++ [s]) rest
    else specKeepAux ks (pre ++ [s]) rest

def specKeep (pr : ProbeResult) (ks : List String) : List String :=
  specKeepAux ks [] pr.streams

lemma buildNonSubAux_eq_spec (pr : ProbeResult)
    (hnodup : (pr.streams.map (fun t => t.index)).Nodup) :
    ∀ (suf pre : List ProbeStream), pre ++ suf = pr.streams →
      buildNonSubAux pr suf = specNonSubAux pre suf := by
  intro suf
  induction suf with
  | nil => intro pre hpre; rfl
  | cons s rest ih =>
    intro pre hpre
    have hpre' : (pre ++ [s]) ++ rest = pr.streams := by
      rw [List.append_assoc, List.singleton_append]; exact hpre
    have hrel : relative_index_for_type pr s.index s.codec_type
        = (pre.countP (fun t => t.codec_type == s.codec_type) : Int) := by
      have hsplit : pr.streams = pre ++ s :: rest := hpre.symm
      have hn := hnodup
      rw [hsplit] at hn
      have h := not_mem_map_index_of_nodup pre rest s hn
      unfold relative_index_for_type
      rw [hsplit, relIndexAux_append pre rest s (-1) h]
      omega
    by_cases hsub : s.codec_type = "subtitle"
    · have hns : ¬ (s.codec_type ≠ "subtitle") := by simp [hsub]
      simp only [buildNonSubAux, specNonSubAux, if_neg hns]
      exact ih (pre ++ [s]) hpre'
    · simp only [buildNonSubAux, specNonSubAux, if_pos hsub, hrel]
      rw [ih (pre ++ [s]) hpre']

lemma keepMapsAux_eq_spec (ks : List String) :
    ∀ (suf pre : List ProbeStream),
      keepMapsAux ks suf ((pre.countP (fun t => t.codec_type == "subtitle") : Int) - 1)
        = specKeepAux ks pre suf := by
  intro suf
  induction suf with
  | nil => intro pre; rfl
  | cons s rest ih =>
    intro pre
    by_cases hsub : s.codec_type = "subtitle"
    · have hcount : ((List.countP (fun t => t.codec_type == "subtitle") (pre ++ [s]) : Nat) : Int)
          = (pre.countP (fun t => t.codec_type == "subtitle") : Int) + 1 := by
        simp [List.countP_append, List.countP_cons, hsub]
      have hc : (pre.countP (fun t => t.codec_type == "subtitle") : Int) - 1 + 1
          = (pre.countP (fun t => t.codec_type == "subtitle") : Int) := by omega
      have htail : keepMapsAux ks rest ((pre.countP (fun t => t.codec_type == "subtitle") : Int))
          = specKeepAux ks (pre ++ [s]) rest := by
        have := ih (pre ++ [s])
        rw [hcount] at this
        simpa using this
      by_cases hk : ks.contains (classify_subtitle s.title s.language s.forced)
      · simp only [keepMapsAux, specKeepAux, if_pos hsub, if_pos hk, hc]
        rw [htail]
      · simp only [keepMapsAux, specKeepAux, if_pos hsub, if_neg hk, hc]
        exact htail
    · have hcount : ((List.countP (fun t => t.codec_type == "subtitle") (pre ++ [s]) : Nat) : Int)
          = (pre.countP (fun t => t.codec_type == "subtitle") : Int) := by
        have hb : (s.codec_type == "subtitle") = false := by simpa using hsub
        simp [List.countP_append, List.countP_cons, hb]
      have htail : keepMapsAux ks rest ((pre.countP (fun t => t.codec_type == "subtitle") : Int) - 1)
          = specKeepAux ks (pre ++ [s]) rest := by
        have := ih (pre ++ [s])
        rw [hcount] at this
        exact this
      simp only [keepMapsAux, specKeepAux, if_neg hsub]
      exact htail

lemma specKeepAux_nil_ks : ∀ (suf pre : List ProbeStream), specKeepAux [] pre suf = [] := by
  intro suf
  induction suf with
  | nil => intro pre; rfl
  | cons s rest ih =>
    intro pre
    by_cases hsub : s.codec_type = "subtitle"
    · simp only [specKeepAux, if_pos hsub]
      have hk : (([] : List String).contains
          (classify_subtitle s.title s.language s.forced)) = false := rfl
      rw [if_neg (by simp [hk])]
      exact ih (pre ++ [s])
    · simp only [specKeepAux, if_neg hsub]
      exact ih (pre ++ [s])

lemma keep_maps_eq_spec (pr : ProbeResult) (kk : Option (List String)) :
    keep_maps pr kk = specKeep pr (kk.getD []) := by
  cases kk with
  | none =>
    show ([] : List String) = specKeep pr []
    rw [specKeep, specKeepAux_nil_ks]
  | some ks =>
    cases ks with
    | nil =>
      show ([] : List String) = specKeep pr []
      rw [specKeep, specKeepAux_nil_ks]
    | cons k ks =>
      show keepMapsAux (k :: ks) pr.streams (-1) = specKeep pr (k :: ks)
      have := keepMapsAux_eq_spec (k :: ks) pr.streams []
      simpa [specKeep] using this

/-- Claim C3: for a probe result with unique absolute indices, the strip
command is exactly the overwrite flag and input, then one `-map` selector
per non-subtitle stream in probe order at its per-type relative index,
then one `-map` selector per subtitle stream whose classification lies in
the caller's keep-set at its subtitle-relative index, then `-c copy` and
the temporary output — no other stream is mapped. -/
theorem c3_strip_cmd_structure (ffmpeg file tmp : String) (pr : ProbeResult)
    (keep_kinds : Option (List String))
    (hnodup : (pr.streams.map (fun t => t.index)).Nodup) :
    strip_cmd ffmpeg file tmp pr keep_kinds
      = [ffmpeg, "-y", "-i", file]
        ++ (specNonSub pr ++ specKeep pr (keep_kinds.getD [])).flatMap (fun m => ["-map", m])
        ++ ["-c", "copy", tmp] := by
  have hb : build_non_sub_maps pr = specNonSub pr :=
    buildNonSubAux_eq_spec pr hnodup pr.streams [] rfl
  unfold strip_cmd
  rw [List.flatMap_append, hb, keep_maps_eq_spec]
  simp [List.append_assoc]

theorem c3_witness :
    ((exPr.streams.map (fun t => t.index)).Nodup)
    ∧ strip_cmd "ffmpeg" "movie.mkv" "movie.mkv.tmp_mux.mkv" exPr (some ["forced"])
        = ["ffmpeg", "-y", "-i", "movie.mkv"]
          ++ (specNonSub exPr ++ specKeep exPr ((some ["forced"]).getD [])).flatMap
              (fun m => ["-map", m])
          ++ ["-c", "copy", "movie.mkv.tmp_mux.mkv"] :=
  ⟨by decide,
   c3_strip_cmd_structure "ffmpeg" "movie.mkv" "movie.mkv.tmp_mux.mkv" exPr
     (some ["forced"]) (by decide)⟩
